import Mathlib

/-!
# Verification of the chess move-legality engine and board state (chess.cpp)

Shallow embedding of the game-logic core of `chess.cpp` (classes `King`,
`Queen`, `Rook`, `Bishop`, `Knight`, `Pawn` and `BoardModel`).  Rendering,
event polling and texture handling are out of scope.

Modelling conventions:
* C++ `int` coordinates become `Int`.
* The board `std::vector<std::shared_ptr<Piece>>` of 64 entries becomes a
  `List (Option Piece)` indexed row-major by `y * 8 + x`, exactly as the
  source computes indices.  A `nullptr` entry is `none`.
* `board.at(i)` (bounds-checked access; throws outside `[0,64)`) is
  totalised as `Grid.cellIdx`, returning `none` outside `[0,64)`.
* The `while (ix != tx)` / `for (i = start+step; i != end; i += step)`
  loops of the sliding pieces run exactly `|stop - start| - 1` iterations
  in every reachable configuration (the step sign always points from
  start to stop there), so they are embedded as fuelled recursions with
  that fuel.
* Mutation of `m_board` / `m_game_over` inside `BoardModel::MovePiece`
  becomes explicit state passing: the Lean `MovePiece` returns the C++
  return value paired with the post-state.
-/

inductive Player where
  | White
  | Black
deriving DecidableEq

inductive PieceType where
  | King
  | Queen
  | Rook
  | Bishop
  | Knight
  | Pawn
deriving DecidableEq

/-- A piece is its owning player (`m_player`) together with its dynamic
type (the C++ subclass, reported by the virtual `PieceType()`). -/
structure Piece where
  player : Player
  type : PieceType
deriving DecidableEq

/-- `BoardCoord` from the source: a pair of `int` coordinates. -/
structure BoardCoord where
  x : Int
  y : Int
deriving DecidableEq

/-- The 64-cell occupancy grid, row-major (`y * 8 + x`), `none` = empty. -/
abbrev Grid := List (Option Piece)

/-- `board.at(i)`: the occupant at flat index `i`; `none` outside the
vector's range (where the C++ `at` would throw). -/
def Grid.cellIdx (g : Grid) (i : Int) : Option Piece :=
  if 0 ≤ i ∧ i < 64 then g.getD i.toNat none else none

/-- The occupant of cell `(x, y)`, i.e. flat index `y * 8 + x`. -/
def Grid.cellAt (g : Grid) (x y : Int) : Option Piece :=
  g.cellIdx (y * 8 + x)

/-- Destination in-bounds check shared by every `IsValidMove`:
the source rejects when `tx >= 8 || tx < 0 || ty >= 8 || ty < 0`. -/
abbrev InBounds (c : BoardCoord) : Prop :=
  0 ≤ c.x ∧ c.x < 8 ∧ 0 ≤ c.y ∧ c.y < 8

/-- The loop body shared by the horizontal/vertical obstruction walks:
starting at index `i`, probe `fuel` cells, stepping by `step` each time;
`false` as soon as an occupied cell is found.  Embeds
`for (int i = start + step; i != end; i += step) { if occupied return false; }`
with `fuel = |end - start| - 1`. -/
def scanLine (cellOf : Int → Option Piece) (i step : Int) : Nat → Bool
  | 0 => true
  | Nat.succ n =>
    if (cellOf i).isSome then false else scanLine cellOf (i + step) step n

/-- The diagonal obstruction walk of Bishop and Queen: starting at
`(ix, iy)`, probe `fuel` cells stepping by `(xstep, ystep)`.  Embeds
`while (ix != tx) { if board.at(iy*8+ix) occupied return false; step; }`
with `fuel = |tx - fx| - 1`. -/
def scanDiag (g : Grid) (ix iy xstep ystep : Int) : Nat → Bool
  | 0 => true
  | Nat.succ n =>
    if (g.cellIdx (iy * 8 + ix)).isSome then false
    else scanDiag g (ix + xstep) (iy + ystep) xstep ystep n

/-- The horizontal/vertical walk duplicated verbatim in `Rook::IsValidMove`
and the horz/vert branch of `Queen::IsValidMove`:
`auto [start, end] = (tx != fx) ? BoardCoord{fx, tx} : BoardCoord{fy, ty};`
then step toward `end` probing `board.at(ty*8+i)` resp. `board.at(i*8+tx)`. -/
def hvWalk (g : Grid) (f t : BoardCoord) : Bool :=
  let se : Int × Int := if t.x ≠ f.x then (f.x, t.x) else (f.y, t.y)
  let start := se.1
  let stop := se.2
  let step : Int := if start < stop then 1 else -1
  let cellOf : Int → Option Piece :=
    if t.x ≠ f.x then fun i => g.cellIdx (t.y * 8 + i)
    else fun i => g.cellIdx (i * 8 + t.x)
  scanLine cellOf (start + step) step ((stop - start).natAbs - 1)

/-- The diagonal walk duplicated verbatim in `Bishop::IsValidMove` and the
diagonal branch of `Queen::IsValidMove`:
`int xstep = fx < tx ? 1 : -1; int ystep = fy < ty ? 1 : -1;`
then walk from `(fx+xstep, fy+ystep)` until `ix == tx`. -/
def diagWalk (g : Grid) (f t : BoardCoord) : Bool :=
  let xstep : Int := if f.x < t.x then 1 else -1
  let ystep : Int := if f.y < t.y then 1 else -1
  scanDiag g (f.x + xstep) (f.y + ystep) xstep ystep ((t.x - f.x).natAbs - 1)

/-- `King::IsValidMove`. -/
def King.IsValidMove (_g : Grid) (f t : BoardCoord) : Bool :=
  if t.x ≥ 8 ∨ t.x < 0 ∨ t.y ≥ 8 ∨ t.y < 0 then false
  else if (f.x - t.x).natAbs > 1 ∨ (f.y - t.y).natAbs > 1 then false
  else true

/-- `Queen::IsValidMove`. -/
def Queen.IsValidMove (g : Grid) (f t : BoardCoord) : Bool :=
  if t = f then false
  else if t.x ≥ 8 ∨ t.x < 0 ∨ t.y ≥ 8 ∨ t.y < 0 then false
  else if (f.x - t.x).natAbs = (f.y - t.y).natAbs then diagWalk g f t
  else if (f.x = t.x ∧ f.y ≠ t.y) ∨ (f.y = t.y ∧ f.x ≠ t.x) then hvWalk g f t
  else false

/-- `Rook::IsValidMove`. -/
def Rook.IsValidMove (g : Grid) (f t : BoardCoord) : Bool :=
  if t = f then false
  else if t.x ≥ 8 ∨ t.x < 0 ∨ t.y ≥ 8 ∨ t.y < 0 then false
  else if t.x ≠ f.x ∧ t.y ≠ f.y then false
  else hvWalk g f t

/-- `Bishop::IsValidMove`. -/
def Bishop.IsValidMove (g : Grid) (f t : BoardCoord) : Bool :=
  if t = f then false
  else if t.x ≥ 8 ∨ t.x < 0 ∨ t.y ≥ 8 ∨ t.y < 0 then false
  else if t.x = f.x ∨ t.y = f.y then false
  else if (f.x - t.x).natAbs ≠ (f.y - t.y).natAbs then false
  else diagWalk g f t

/-- `Knight::IsValidMove`. -/
def Knight.IsValidMove (_g : Grid) (f t : BoardCoord) : Bool :=
  if t.x ≥ 8 ∨ t.x < 0 ∨ t.y ≥ 8 ∨ t.y < 0 then false
  else decide (((t.x - f.x).natAbs = 1 ∧ (t.y - f.y).natAbs = 2)
      ∨ ((t.x - f.x).natAbs = 2 ∧ (t.y - f.y).natAbs = 1))

/-- `Pawn::IsValidMove` (the only check that reads `m_player`). -/
def Pawn.IsValidMove (p : Player) (g : Grid) (f t : BoardCoord) : Bool :=
  if t.x ≥ 8 ∨ t.x < 0 ∨ t.y ≥ 8 ∨ t.y < 0 then false
  else if (if p = Player.White then f.y - t.y = 1 else t.y - f.y = 1)
      ∧ (t.x - f.x).natAbs ≤ 1 then
    if (t.x - f.x).natAbs = 1 then (g.cellIdx (t.y * 8 + t.x)).isSome
    else (g.cellIdx (t.y * 8 + t.x)).isNone
  else false

/-- The virtual dispatch `piece->IsValidMove(board, from, to)`. -/
def Piece.IsValidMove (pc : Piece) (g : Grid) (f t : BoardCoord) : Bool :=
  match pc.type with
  | PieceType.King => King.IsValidMove g f t
  | PieceType.Queen => Queen.IsValidMove g f t
  | PieceType.Rook => Rook.IsValidMove g f t
  | PieceType.Bishop => Bishop.IsValidMove g f t
  | PieceType.Knight => Knight.IsValidMove g f t
  | PieceType.Pawn => Pawn.IsValidMove pc.player g f t

/-- The test `defender_piece != nullptr && defender_piece->PieceType() == PieceType::King`. -/
def isKingOcc : Option Piece → Bool
  | some d => decide (d.type = PieceType.King)
  | none => false

/-- The fields of `BoardModel`. -/
structure BoardModel where
  m_board : Grid
  m_move_started : Bool
  m_space_selected : BoardCoord
  m_game_over : Bool
  m_cur_player : Player
deriving DecidableEq

/-- `BoardModel::GetPieceAt`: occupant at flat index `y*8 + x`
(the source asserts the index is in range; totalised to `none` outside). -/
def BoardModel.GetPieceAt (m : BoardModel) (c : BoardCoord) : Option Piece :=
  m.m_board.cellIdx (c.y * 8 + c.x)

/-- `BoardModel::MovePiece`, with the mutation of `m_board` and
`m_game_over` made explicit: returns (C++ return value, post-state). -/
def BoardModel.MovePiece (m : BoardModel) (p : Player) (f t : BoardCoord) :
    Bool × BoardModel :=
  match m.GetPieceAt f with
  | none => (false, m)
  | some attacker_piece =>
    let defender_piece := m.GetPieceAt t
    let valid_move := attacker_piece.IsValidMove m.m_board f t
    let defender_ok : Bool :=
      match defender_piece with
      | none => true
      | some d => decide (d.player ≠ p)
    if valid_move && defender_ok then
      let over := if isKingOcc defender_piece then true else m.m_game_over
      let b1 := m.m_board.set ((t.y * 8) + t.x).toNat (some attacker_piece)
      let b2 := b1.set ((f.y * 8) + f.x).toNat none
      (true, { m with m_board := b2, m_game_over := over })
    else
      (false, m)

/-- `BoardModel::SelectSpace`, state-passing style. -/
def BoardModel.SelectSpace (m : BoardModel) (coord : BoardCoord) : BoardModel :=
  if m.m_game_over then m
  else if m.m_move_started then
    let r := m.MovePiece m.m_cur_player m.m_space_selected coord
    let m2 := { r.2 with m_move_started := false }
    if r.1 then
      { m2 with m_cur_player :=
          if m2.m_cur_player = Player.White then Player.Black else Player.White }
    else m2
  else
    match m.GetPieceAt coord with
    | none => m
    | some pc =>
      if pc.player ≠ m.m_cur_player then m
      else { m with m_space_selected := coord, m_move_started := true }

/-- Abbreviations for the occupants placed by the `BoardModel` constructor. -/
def bRk : Option Piece := some ⟨Player.Black, PieceType.Rook⟩
def bKn : Option Piece := some ⟨Player.Black, PieceType.Knight⟩
def bBi : Option Piece := some ⟨Player.Black, PieceType.Bishop⟩
def bQu : Option Piece := some ⟨Player.Black, PieceType.Queen⟩
def bKi : Option Piece := some ⟨Player.Black, PieceType.King⟩
def bPa : Option Piece := some ⟨Player.Black, PieceType.Pawn⟩
def wRk : Option Piece := some ⟨Player.White, PieceType.Rook⟩
def wKn : Option Piece := some ⟨Player.White, PieceType.Knight⟩
def wBi : Option Piece := some ⟨Player.White, PieceType.Bishop⟩
def wQu : Option Piece := some ⟨Player.White, PieceType.Queen⟩
def wKi : Option Piece := some ⟨Player.White, PieceType.King⟩
def wPa : Option Piece := some ⟨Player.White, PieceType.Pawn⟩

/-- The initial occupancy grid built by the `BoardModel` constructor:
Black back row at row 0, Black pawns at row 1, White pawns at row 6,
White back row at row 7, everything else empty. -/
def initBoard : Grid :=
  [bRk, bKn, bBi, bQu, bKi, bBi, bKn, bRk]
    ++ List.replicate 8 bPa
    ++ List.replicate 32 none
    ++ List.replicate 8 wPa
    ++ [wRk, wKn, wBi, wQu, wKi, wBi, wKn, wRk]

/-- The freshly constructed `BoardModel`: initial grid, no selection,
game not over, White to move (the member initialisers of the source). -/
def initModel : BoardModel :=
  { m_board := initBoard
    m_move_started := false
    m_space_selected := ⟨0, 0⟩
    m_game_over := false
    m_cur_player := Player.White }

/-! ## Helper lemmas -/

theorem coord_ext {a b : BoardCoord} (hx : a.x = b.x) (hy : a.y = b.y) : a = b := by
  cases a; cases b; simp_all

/-- `scanLine` with step `1` succeeds iff every probed cell is empty:
the probed cells are exactly `i, i+1, …, i+n-1`. -/
theorem scanLine_one (c : Int → Option Piece) :
    ∀ (n : Nat) (i : Int),
      scanLine c i 1 n = true ↔ ∀ j : Int, i ≤ j → j < i + (n : Int) → c j = none := by
  intro n
  induction n with
  | zero =>
    intro i
    constructor
    · intro _ j h1 h2
      exact absurd (lt_of_le_of_lt h1 h2) (by omega)
    · intro _
      rfl
  | succ n ih =>
    intro i
    show (if (c i).isSome then false else scanLine c (i + 1) 1 n) = true ↔ _
    cases hc : c i with
    | some v =>
      simp only [hc, Option.isSome_some, if_true]
      constructor
      · intro h
        exact absurd h (by simp)
      · intro hall
        have h0 := hall i (le_refl i) (by omega)
        rw [hc] at h0
        exact absurd h0 (by simp)
    | none =>
      simp only [hc, Option.isSome_none, Bool.false_eq_true, if_false]
      rw [ih (i + 1)]
      constructor
      · intro h j h1 h2
        rcases eq_or_lt_of_le h1 with he | hlt
        · rw [← he]; exact hc
        · exact h j (by omega) (by omega)
      · intro h j h1 h2
        exact h j (by omega) (by omega)

/-- `scanLine` with step `-1` succeeds iff every probed cell is empty:
the probed cells are exactly `i, i-1, …, i-n+1`. -/
theorem scanLine_negOne (c : Int → Option Piece) :
    ∀ (n : Nat) (i : Int),
      scanLine c i (-1) n = true ↔ ∀ j : Int, i - (n : Int) < j → j ≤ i → c j = none := by
  intro n
  induction n with
  | zero =>
    intro i
    constructor
    · intro _ j h1 h2
      exact absurd (lt_of_lt_of_le h1 h2) (by omega)
    · intro _
      rfl
  | succ n ih =>
    intro i
    show (if (c i).isSome then false else scanLine c (i + -1) (-1) n) = true ↔ _
    cases hc : c i with
    | some v =>
      simp only [hc, Option.isSome_some, if_true]
      constructor
      · intro h
        exact absurd h (by simp)
      · intro hall
        have h0 := hall i (by omega) (le_refl i)
        rw [hc] at h0
        exact absurd h0 (by simp)
    | none =>
      simp only [hc, Option.isSome_none, Bool.false_eq_true, if_false]
      rw [ih (i + -1)]
      constructor
      · intro h j h1 h2
        rcases eq_or_lt_of_le h2 with he | hlt
        · rw [he]; exact hc
        · exact h j (by omega) (by omega)
      · intro h j h1 h2
        exact h j (by omega) (by omega)

/-- The horizontal walk checks exactly the cells strictly between the two
x-coordinates, on row `t.y`. -/
theorem hvWalk_iff_x (g : Grid) (f t : BoardCoord) (hne : t.x ≠ f.x) :
    hvWalk g f t = true ↔
      ∀ i : Int, min f.x t.x < i → i < max f.x t.x → g.cellAt i t.y = none := by
  unfold hvWalk
  simp only [if_pos hne]
  rcases lt_trichotomy f.x t.x with h | h | h
  · rw [if_pos h, scanLine_one]
    rw [min_eq_left h.le, max_eq_right h.le]
    constructor
    · intro hw i h1 h2
      exact hw i (by omega) (by omega)
    · intro hw j h1 h2
      exact hw j (by omega) (by omega)
  · exact absurd h.symm hne
  · rw [if_neg (by omega), scanLine_negOne]
    rw [min_eq_right h.le, max_eq_left h.le]
    constructor
    · intro hw i h1 h2
      exact hw i (by omega) (by omega)
    · intro hw j h1 h2
      exact hw j (by omega) (by omega)

/-- The vertical walk checks exactly the cells strictly between the two
y-coordinates, in column `t.x`. -/
theorem hvWalk_iff_y (g : Grid) (f t : BoardCoord) (heq : t.x = f.x) (hney : t.y ≠ f.y) :
    hvWalk g f t = true ↔
      ∀ j : Int, min f.y t.y < j → j < max f.y t.y → g.cellAt t.x j = none := by
  unfold hvWalk
  simp only [if_neg (by omega : ¬ t.x ≠ f.x)]
  rcases lt_trichotomy f.y t.y with h | h | h
  · rw [if_pos h, scanLine_one]
    rw [min_eq_left h.le, max_eq_right h.le]
    constructor
    · intro hw j h1 h2
      exact hw j (by omega) (by omega)
    · intro hw j h1 h2
      exact hw j (by omega) (by omega)
  · exact absurd h.symm hney
  · rw [if_neg (by omega), scanLine_negOne]
    rw [min_eq_right h.le, max_eq_left h.le]
    constructor
    · intro hw j h1 h2
      exact hw j (by omega) (by omega)
    · intro hw j h1 h2
      exact hw j (by omega) (by omega)

/-! ## Claim theorems -/

/-- C3: Queen legality equals the union (logical OR) of Rook legality and
Bishop legality on the same occupancy grid, origin and destination. -/
theorem queen_is_rook_or_bishop (g : Grid) (f t : BoardCoord) :
    Queen.IsValidMove g f t = (Rook.IsValidMove g f t || Bishop.IsValidMove g f t) := by
  by_cases h1 : t = f
  · simp [Queen.IsValidMove, Rook.IsValidMove, Bishop.IsValidMove, h1]
  · by_cases h2 : t.x ≥ 8 ∨ t.x < 0 ∨ t.y ≥ 8 ∨ t.y < 0
    · simp [Queen.IsValidMove, Rook.IsValidMove, Bishop.IsValidMove, h1, h2]
    · by_cases hd : (f.x - t.x).natAbs = (f.y - t.y).natAbs
      · have hxx : t.x ≠ f.x := fun he => h1 (coord_ext he (by omega))
        have hyy : t.y ≠ f.y := fun he => h1 (coord_ext (by omega) he)
        simp [Queen.IsValidMove, Rook.IsValidMove, Bishop.IsValidMove,
          h1, h2, hd, hxx, hyy]
      · by_cases hq : (f.x = t.x ∧ f.y ≠ t.y) ∨ (f.y = t.y ∧ f.x ≠ t.x)
        · rcases hq with ⟨hxe, hyne⟩ | ⟨hye, hxne⟩
          · have hyy : t.y ≠ f.y := fun he => h1 (coord_ext hxe.symm he)
            have h0 : ¬((0 : Nat) = (f.y - t.y).natAbs) := by omega
            simp [Queen.IsValidMove, Rook.IsValidMove, Bishop.IsValidMove,
              h1, h2, hd, hxe.symm, hyy, hyne, h0]
          · have hxx : t.x ≠ f.x := fun he => h1 (coord_ext he hye.symm)
            have h0 : ¬(f.x - t.x = 0) := by omega
            simp [Queen.IsValidMove, Rook.IsValidMove, Bishop.IsValidMove,
              h1, h2, hd, hye.symm, hxx, hxne, h0]
        · push_neg at hq
          have hxx : t.x ≠ f.x := by
            intro he
            rcases hq with ⟨hq1, _⟩
            exact h1 (coord_ext he (hq1 he.symm).symm)
          have hyy : t.y ≠ f.y := by
            intro he
            rcases hq with ⟨_, hq2⟩
            exact h1 (coord_ext (hq2 he.symm).symm he)
          have hxx2 : f.x ≠ t.x := fun he => hxx he.symm
          have hyy2 : f.y ≠ t.y := fun he => hyy he.symm
          simp [Queen.IsValidMove, Rook.IsValidMove, Bishop.IsValidMove,
            h1, h2, hd, hxx, hyy, hxx2, hyy2]

/-- C1: Rook legality is false when origin = destination, the destination
is out of bounds, or the move is neither purely horizontal nor purely
vertical; otherwise it holds iff every cell strictly between origin and
destination along the single moving axis is empty (only strictly-between
cells are consulted, never the endpoints nor the destination occupant). -/
theorem rook_correct (g : Grid) (f t : BoardCoord) :
    Rook.IsValidMove g f t = true ↔
      f ≠ t ∧ InBounds t ∧
      ((f.y = t.y ∧ ∀ i : Int, min f.x t.x < i → i < max f.x t.x → g.cellAt i f.y = none)
        ∨ (f.x = t.x ∧ ∀ j : Int, min f.y t.y < j → j < max f.y t.y → g.cellAt f.x j = none)) := by
  unfold Rook.IsValidMove
  by_cases h1 : t = f
  · subst h1
    simp
  · rw [if_neg h1]
    by_cases h2 : t.x ≥ 8 ∨ t.x < 0 ∨ t.y ≥ 8 ∨ t.y < 0
    · rw [if_pos h2]
      have hnb : ¬ InBounds t := by
        intro hbnd
        rcases hbnd with ⟨a, b, c, d⟩
        omega
      simp [hnb]
    · rw [if_neg h2]
      push_neg at h2
      have hb : InBounds t := ⟨by omega, by omega, by omega, by omega⟩
      by_cases h3 : t.x ≠ f.x ∧ t.y ≠ f.y
      · rw [if_pos h3]
        have hx2 : f.x ≠ t.x := fun he => h3.1 he.symm
        have hy2 : f.y ≠ t.y := fun he => h3.2 he.symm
        simp [hx2, hy2]
      · rw [if_neg h3]
        by_cases hx : t.x = f.x
        · have hty : t.y ≠ f.y := fun he => h1 (coord_ext hx he)
          rw [hvWalk_iff_y g f t hx hty]
          constructor
          · intro hw
            refine ⟨fun he => h1 he.symm, hb, Or.inr ⟨hx.symm, ?_⟩⟩
            intro j hj1 hj2
            rw [← hx]
            exact hw j hj1 hj2
          · rintro ⟨hft, _, hc | hc⟩
            · exact absurd (coord_ext hx hc.1.symm) h1
            · intro j hj1 hj2
              rw [hx]
              exact hc.2 j hj1 hj2
        · have hy : t.y = f.y := by
            by_contra hy
            exact h3 ⟨hx, hy⟩
          rw [hvWalk_iff_x g f t hx]
          constructor
          · intro hw
            refine ⟨fun he => h1 he.symm, hb, Or.inl ⟨hy.symm, ?_⟩⟩
            intro i hi1 hi2
            rw [← hy]
            exact hw i hi1 hi2
          · rintro ⟨hft, _, hc | hc⟩
            · intro i hi1 hi2
              rw [hy]
              exact hc.2 i hi1 hi2
            · exact absurd (coord_ext hc.1.symm hy) h1

/-- C2: Pawn legality is false for an out-of-bounds destination; otherwise
it holds iff the row delta in the mover's forward direction (White toward
decreasing row, Black toward increasing row) is exactly 1 and the column
delta has absolute value at most 1, with a diagonal step legal iff the
destination is occupied by any piece (owner not consulted) and a straight
step legal iff the destination is empty; no two-square advance exists. -/
theorem pawn_correct (p : Player) (g : Grid) (f t : BoardCoord) :
    Pawn.IsValidMove p g f t = true ↔
      InBounds t
      ∧ (if p = Player.White then f.y - t.y else t.y - f.y) = 1
      ∧ (t.x - f.x).natAbs ≤ 1
      ∧ (((t.x - f.x).natAbs = 1 ∧ (g.cellAt t.x t.y).isSome = true)
          ∨ (t.x = f.x ∧ g.cellAt t.x t.y = none)) := by
  unfold Pawn.IsValidMove
  by_cases h1 : t.x ≥ 8 ∨ t.x < 0 ∨ t.y ≥ 8 ∨ t.y < 0
  · rw [if_pos h1]
    have hnb : ¬ InBounds t := by
      intro hbnd
      rcases hbnd with ⟨a, b, c, d⟩
      omega
    simp [hnb]
  · rw [if_neg h1]
    push_neg at h1
    have hb : InBounds t := ⟨by omega, by omega, by omega, by omega⟩
    by_cases h2 : (if p = Player.White then f.y - t.y = 1 else t.y - f.y = 1)
        ∧ (t.x - f.x).natAbs ≤ 1
    · rw [if_pos h2]
      have hy1 : (if p = Player.White then f.y - t.y else t.y - f.y) = 1 := by
        rcases h2 with ⟨h2a, _⟩
        cases p <;> simp_all
      by_cases h3 : (t.x - f.x).natAbs = 1
      · rw [if_pos h3]
        unfold Grid.cellAt
        constructor
        · intro hs
          exact ⟨hb, hy1, h2.2, Or.inl ⟨h3, hs⟩⟩
        · rintro ⟨_, _, _, hc | hc⟩
          · exact hc.2
          · rcases hc with ⟨hc1, _⟩
            exact absurd h3 (by omega)
      · rw [if_neg h3]
        unfold Grid.cellAt
        rw [Option.isNone_iff_eq_none]
        constructor
        · intro hn
          exact ⟨hb, hy1, h2.2, Or.inr ⟨by omega, hn⟩⟩
        · rintro ⟨_, _, _, hc | hc⟩
          · exact absurd hc.1 h3
          · exact hc.2
    · rw [if_neg h2]
      constructor
      · intro h
        exact absurd h (by simp)
      · rintro ⟨_, hy1, hx1, _⟩
        exfalso
        apply h2
        refine ⟨?_, hx1⟩
        cases p <;> simp_all

/-- C7: King legality holds iff the destination is in-bounds and both
coordinate deltas have absolute value at most 1, in any direction and
including the null move (origin = destination) — which Rook, Bishop and
Queen all explicitly reject. -/
theorem king_correct (g : Grid) (f t : BoardCoord) :
    (King.IsValidMove g f t = true ↔
        InBounds t ∧ (f.x - t.x).natAbs ≤ 1 ∧ (f.y - t.y).natAbs ≤ 1)
    ∧ (King.IsValidMove g f f = true ↔ InBounds f)
    ∧ Rook.IsValidMove g f f = false
    ∧ Bishop.IsValidMove g f f = false
    ∧ Queen.IsValidMove g f f = false := by
  refine ⟨?_, ?_, ?_, ?_, ?_⟩
  · unfold King.IsValidMove
    by_cases h1 : t.x ≥ 8 ∨ t.x < 0 ∨ t.y ≥ 8 ∨ t.y < 0
    · rw [if_pos h1]
      constructor
      · intro hh
        exact absurd hh (by simp)
      · rintro ⟨⟨a, b, c, d⟩, _, _⟩
        exfalso
        omega
    · rw [if_neg h1]
      push_neg at h1
      by_cases h2 : (f.x - t.x).natAbs > 1 ∨ (f.y - t.y).natAbs > 1
      · rw [if_pos h2]
        constructor
        · intro hh
          exact absurd hh (by simp)
        · rintro ⟨_, ha, hbb⟩
          exfalso
          omega
      · rw [if_neg h2]
        push_neg at h2
        constructor
        · intro _
          exact ⟨⟨by omega, by omega, by omega, by omega⟩, by omega, by omega⟩
        · intro _
          rfl
  · unfold King.IsValidMove
    by_cases h1 : f.x ≥ 8 ∨ f.x < 0 ∨ f.y ≥ 8 ∨ f.y < 0
    · rw [if_pos h1]
      constructor
      · intro hh
        exact absurd hh (by simp)
      · rintro ⟨a, b, c, d⟩
        exfalso
        omega
    · rw [if_neg h1, if_neg (by omega)]
      push_neg at h1
      constructor
      · intro _
        exact ⟨by omega, by omega, by omega, by omega⟩
      · intro _
        rfl
  · simp [Rook.IsValidMove]
  · simp [Bishop.IsValidMove]
  · simp [Queen.IsValidMove]

/-- C8: for any destination with a coordinate outside `[0,8)`, every one
of the six piece legality checks returns false. -/
theorem oob_all_false (g : Grid) (p : Player) (f t : BoardCoord)
    (h : ¬ InBounds t) :
    King.IsValidMove g f t = false
    ∧ Queen.IsValidMove g f t = false
    ∧ Rook.IsValidMove g f t = false
    ∧ Bishop.IsValidMove g f t = false
    ∧ Knight.IsValidMove g f t = false
    ∧ Pawn.IsValidMove p g f t = false := by
  have hc : t.x ≥ 8 ∨ t.x < 0 ∨ t.y ≥ 8 ∨ t.y < 0 := by
    by_contra hcc
    push_neg at hcc
    exact h ⟨by omega, by omega, by omega, by omega⟩
  refine ⟨?_, ?_, ?_, ?_, ?_, ?_⟩
  · unfold King.IsValidMove
    rw [if_pos hc]
  · by_cases ht : t = f
    · unfold Queen.IsValidMove
      rw [if_pos ht]
    · unfold Queen.IsValidMove
      rw [if_neg ht, if_pos hc]
  · by_cases ht : t = f
    · unfold Rook.IsValidMove
      rw [if_pos ht]
    · unfold Rook.IsValidMove
      rw [if_neg ht, if_pos hc]
  · by_cases ht : t = f
    · unfold Bishop.IsValidMove
      rw [if_pos ht]
    · unfold Bishop.IsValidMove
      rw [if_neg ht, if_pos hc]
  · unfold Knight.IsValidMove
    rw [if_pos hc]
  · unfold Pawn.IsValidMove
    rw [if_pos hc]

/-- Witness for C8 at the concrete destination (8, 3). -/
theorem oob_all_false_witness :
    ¬ InBounds (⟨8, 3⟩ : BoardCoord)
    ∧ (King.IsValidMove initBoard ⟨0, 0⟩ ⟨8, 3⟩ = false
      ∧ Queen.IsValidMove initBoard ⟨0, 0⟩ ⟨8, 3⟩ = false
      ∧ Rook.IsValidMove initBoard ⟨0, 0⟩ ⟨8, 3⟩ = false
      ∧ Bishop.IsValidMove initBoard ⟨0, 0⟩ ⟨8, 3⟩ = false
      ∧ Knight.IsValidMove initBoard ⟨0, 0⟩ ⟨8, 3⟩ = false
      ∧ Pawn.IsValidMove Player.White initBoard ⟨0, 0⟩ ⟨8, 3⟩ = false) :=
  ⟨by decide, oob_all_false initBoard Player.White ⟨0, 0⟩ ⟨8, 3⟩ (by decide)⟩

/-- `MovePiece` never touches the turn or selection fields. -/
theorem movePiece_fields (m : BoardModel) (p : Player) (f t : BoardCoord) :
    (m.MovePiece p f t).2.m_cur_player = m.m_cur_player
    ∧ (m.MovePiece p f t).2.m_move_started = m.m_move_started
    ∧ (m.MovePiece p f t).2.m_space_selected = m.m_space_selected := by
  unfold BoardModel.MovePiece
  cases hA : m.GetPieceAt f with
  | none => simp
  | some atk =>
    dsimp only
    split <;> simp

/-- C9: every `MovePiece` call either fully applies — the origin occupant
is written to the destination cell, the origin cell is cleared, and the
game-over flag is raised exactly when the destination held a King — or,
when it returns false, leaves the state completely unchanged. -/
theorem movePiece_atomic (m : BoardModel) (p : Player) (f t : BoardCoord) :
    (m.MovePiece p f t).2 =
      if (m.MovePiece p f t).1 then
        { m with
          m_board := (m.m_board.set ((t.y * 8) + t.x).toNat (m.GetPieceAt f)).set
            ((f.y * 8) + f.x).toNat none,
          m_game_over := m.m_game_over || isKingOcc (m.GetPieceAt t) }
      else m := by
  cases hA : m.GetPieceAt f with
  | none => simp [BoardModel.MovePiece, hA]
  | some atk =>
    simp only [BoardModel.MovePiece, hA]
    split
    · cases hk : isKingOcc (m.GetPieceAt t) <;> simp [hk]
    · simp

/-- C4: a `MovePiece` call returns true only when the piece-level
legality check approves the move and the destination is empty or held by
the other player — so a piece is never relocated onto a same-player cell,
even when the raw piece-legality check alone would pass. -/
theorem movePiece_guard (m : BoardModel) (p : Player) (f t : BoardCoord)
    (h : (m.MovePiece p f t).1 = true) :
    ∃ atk, m.GetPieceAt f = some atk
      ∧ atk.IsValidMove m.m_board f t = true
      ∧ (m.GetPieceAt t = none ∨ ∃ d, m.GetPieceAt t = some d ∧ d.player ≠ p) := by
  unfold BoardModel.MovePiece at h
  cases hA : m.GetPieceAt f with
  | none =>
    rw [hA] at h
    simp at h
  | some atk =>
    rw [hA] at h
    simp only at h
    refine ⟨atk, rfl, ?_⟩
    by_cases hcond : (atk.IsValidMove m.m_board f t
        && (match m.GetPieceAt t with
            | none => true
            | some d => decide (d.player ≠ p))) = true
    · rw [Bool.and_eq_true] at hcond
      rcases hcond with ⟨hv, hok⟩
      refine ⟨hv, ?_⟩
      cases hD : m.GetPieceAt t with
      | none => exact Or.inl rfl
      | some d =>
        rw [hD] at hok
        exact Or.inr ⟨d, rfl, of_decide_eq_true hok⟩
    · rw [if_neg hcond] at h
      simp at h

/-- Witness for C4: White's pawn double-step start position move
(4,6) → (4,5) is accepted, and the guard facts hold there. -/
theorem movePiece_guard_witness :
    (initModel.MovePiece Player.White ⟨4, 6⟩ ⟨4, 5⟩).1 = true
    ∧ ∃ atk, initModel.GetPieceAt ⟨4, 6⟩ = some atk
        ∧ atk.IsValidMove initModel.m_board ⟨4, 6⟩ ⟨4, 5⟩ = true
        ∧ (initModel.GetPieceAt ⟨4, 5⟩ = none
          ∨ ∃ d, initModel.GetPieceAt ⟨4, 5⟩ = some d ∧ d.player ≠ Player.White) :=
  ⟨by decide, movePiece_guard initModel Player.White ⟨4, 6⟩ ⟨4, 5⟩ (by decide)⟩

/-- C10: a null move onto a cell holding the mover's own piece is always
rejected with no state change: the destination occupant is the moving
piece itself, so the self-capture condition fails regardless of the
piece-level check (e.g. the King check, which accepts origin = destination). -/
theorem null_move_rejected (m : BoardModel) (p : Player) (c : BoardCoord)
    (pc : Piece) (h : m.GetPieceAt c = some pc) (hp : pc.player = p) :
    (m.MovePiece p c c).1 = false ∧ (m.MovePiece p c c).2 = m := by
  simp [BoardModel.MovePiece, h, hp]

/-- Witness for C10: Black cannot "move" the rook at (0,0) onto itself. -/
theorem null_move_rejected_witness :
    initModel.GetPieceAt ⟨0, 0⟩ = some ⟨Player.Black, PieceType.Rook⟩
    ∧ (⟨Player.Black, PieceType.Rook⟩ : Piece).player = Player.Black
    ∧ (initModel.MovePiece Player.Black ⟨0, 0⟩ ⟨0, 0⟩).1 = false
    ∧ (initModel.MovePiece Player.Black ⟨0, 0⟩ ⟨0, 0⟩).2 = initModel :=
  ⟨by decide, rfl,
    (null_move_rejected initModel Player.Black ⟨0, 0⟩
      ⟨Player.Black, PieceType.Rook⟩ (by decide) rfl).1,
    (null_move_rejected initModel Player.Black ⟨0, 0⟩
      ⟨Player.Black, PieceType.Rook⟩ (by decide) rfl).2⟩

/-- Once the game-over flag is set, any sequence of `SelectSpace` calls
leaves the whole state unchanged. -/
theorem selectSpace_frozen (m : BoardModel) (hg : m.m_game_over = true) :
    ∀ cs : List BoardCoord, List.foldl BoardModel.SelectSpace m cs = m := by
  intro cs
  induction cs with
  | nil => rfl
  | cons c cs ih =>
    have hstep : m.SelectSpace c = m := by
      unfold BoardModel.SelectSpace
      rw [hg]
      simp
    rw [List.foldl_cons, hstep, ih]

/-- C5: after an accepted move whose destination held a King, the
game-over flag is true, and from that state every further sequence of
`SelectSpace` calls changes nothing at all (occupancy, turn and selection
stay frozen; the Finished state is terminal). -/
theorem king_capture_terminal (m : BoardModel) (p : Player) (f t : BoardCoord)
    (d : Piece) (h1 : (m.MovePiece p f t).1 = true)
    (h2 : m.GetPieceAt t = some d) (h3 : d.type = PieceType.King) :
    (m.MovePiece p f t).2.m_game_over = true
    ∧ ∀ cs : List BoardCoord,
        List.foldl BoardModel.SelectSpace (m.MovePiece p f t).2 cs
          = (m.MovePiece p f t).2 := by
  have hover : (m.MovePiece p f t).2.m_game_over = true := by
    unfold BoardModel.MovePiece at h1 ⊢
    cases hA : m.GetPieceAt f with
    | none =>
      rw [hA] at h1
      simp at h1
    | some atk =>
      rw [hA] at h1
      dsimp only at h1 ⊢
      by_cases hcond : (atk.IsValidMove m.m_board f t
          && (match m.GetPieceAt t with
              | none => true
              | some d2 => decide (d2.player ≠ p))) = true
      · rw [if_pos hcond]
        simp [isKingOcc, h2, h3]
      · rw [if_neg hcond] at h1
        simp at h1
  exact ⟨hover, selectSpace_frozen _ hover⟩

/-- A position with a Black rook at (0,0), a clear file, and the White
king at (0,7); Black to move. -/
def rookKingModel : BoardModel :=
  { m_board := [bRk] ++ List.replicate 55 none ++ [wKi] ++ List.replicate 7 none
    m_move_started := false
    m_space_selected := ⟨0, 0⟩
    m_game_over := false
    m_cur_player := Player.Black }

/-- Witness for C5: the rook capture of the White king ends the game and
freezes the state under further `SelectSpace` calls. -/
theorem king_capture_terminal_witness :
    (rookKingModel.MovePiece Player.Black ⟨0, 0⟩ ⟨0, 7⟩).1 = true
    ∧ rookKingModel.GetPieceAt ⟨0, 7⟩ = some ⟨Player.White, PieceType.King⟩
    ∧ (⟨Player.White, PieceType.King⟩ : Piece).type = PieceType.King
    ∧ (rookKingModel.MovePiece Player.Black ⟨0, 0⟩ ⟨0, 7⟩).2.m_game_over = true
    ∧ List.foldl BoardModel.SelectSpace
        (rookKingModel.MovePiece Player.Black ⟨0, 0⟩ ⟨0, 7⟩).2 [⟨3, 3⟩, ⟨4, 4⟩]
        = (rookKingModel.MovePiece Player.Black ⟨0, 0⟩ ⟨0, 7⟩).2 :=
  ⟨by decide, by decide, rfl,
    (king_capture_terminal rookKingModel Player.Black ⟨0, 0⟩ ⟨0, 7⟩
      ⟨Player.White, PieceType.King⟩ (by decide) (by decide) rfl).1,
    (king_capture_terminal rookKingModel Player.Black ⟨0, 0⟩ ⟨0, 7⟩
      ⟨Player.White, PieceType.King⟩ (by decide) (by decide) rfl).2 [⟨3, 3⟩, ⟨4, 4⟩]⟩

/-- C6: the freshly constructed model has White to move; a `SelectSpace`
call arriving with a pending selection always clears the selection, and
the current player flips exactly when the invoked `MovePiece` succeeded
(after a rejected move the turn is unchanged). -/
theorem turn_alternation (m : BoardModel) (c : BoardCoord)
    (hg : m.m_game_over = false) (hs : m.m_move_started = true) :
    initModel.m_cur_player = Player.White
    ∧ (m.SelectSpace c).m_move_started = false
    ∧ (m.SelectSpace c).m_cur_player =
        (if (m.MovePiece m.m_cur_player m.m_space_selected c).1 = true
          then (if m.m_cur_player = Player.White then Player.Black else Player.White)
          else m.m_cur_player) := by
  have hf := movePiece_fields m m.m_cur_player m.m_space_selected c
  refine ⟨rfl, ?_, ?_⟩
  · unfold BoardModel.SelectSpace
    rw [hg, hs]
    cases hr : (m.MovePiece m.m_cur_player m.m_space_selected c).1 with
    | false => simp [hr]
    | true => simp [hr]
  · unfold BoardModel.SelectSpace
    rw [hg, hs]
    cases hr : (m.MovePiece m.m_cur_player m.m_space_selected c).1 with
    | false => simp [hr, hf.1]
    | true => simp [hr, hf.1]

/-- The initial model with White's pawn at (4,6) already selected. -/
def pendingModel : BoardModel :=
  { initModel with m_move_started := true, m_space_selected := ⟨4, 6⟩ }

/-- Witness for C6 at the accepted pawn move (4,6) → (4,5). -/
theorem turn_alternation_witness :
    pendingModel.m_game_over = false
    ∧ pendingModel.m_move_started = true
    ∧ (initModel.m_cur_player = Player.White
      ∧ (pendingModel.SelectSpace ⟨4, 5⟩).m_move_started = false
      ∧ (pendingModel.SelectSpace ⟨4, 5⟩).m_cur_player =
          (if (pendingModel.MovePiece pendingModel.m_cur_player
                pendingModel.m_space_selected ⟨4, 5⟩).1 = true
            then (if pendingModel.m_cur_player = Player.White
              then Player.Black else Player.White)
            else pendingModel.m_cur_player)) :=
  ⟨rfl, rfl, turn_alternation pendingModel ⟨4, 5⟩ rfl rfl⟩
